import Mathlib

/-!
# Verification of the shrinkwrap dependency resolver

Shallow embedding of `src/index.js` (the `Shrinkwrap` resolver) and
`src/module.js` (the `Module` entity) of the 3rd-Eden/shrinkwrap repository,
together with theorems settling the frozen claims about it.

Conventions of the embedding:

* JavaScript objects that are used as string-keyed maps become association
  lists (`List (String × _)`); key insertion order is list order, which is
  exactly the enumeration order of `Object.keys`.
* The asynchronous worker queue of `Shrinkwrap.prototype.resolve` is a
  sequential loop: the code itself processes one todolist item at a time
  (each registry callback re-invokes `worker` exactly once), so a fuel-indexed
  functional loop is a faithful rendering of the control flow.
* The external collaborators that are not part of this repository are modelled
  at their documented interfaces: the Version Comparator
  (`npm-registry/semver`, i.e. node-semver: `eq` compares concrete versions
  and throws a TypeError on strings that do not parse as versions;
  `maxSatisfying` selects the greatest version satisfying a range and treats
  an unparsable range as matched by nothing; `validRange` normalizes a range
  or yields null, and yields null when handed `undefined` because the Range
  constructor throws), and the Registry Client (`npm-registry`), modelled as a
  deterministic function from a package name to either an error or a list of
  version documents.  The version grammar covered by the model is plain
  numeric `X.Y.Z` versions and the ranges `*`, `^X.Y.Z` and exact `X.Y.Z`,
  which is the whole space the theorems below exercise.
-/

/-! ## Model of the external Version Comparator (node-semver) -/

/-- Parse a non-empty all-digit character run as a number. -/
def parseNumChars (cs : List Char) : Option Nat :=
  if cs.isEmpty then none
  else if cs.all Char.isDigit then
    some (cs.foldl (fun acc c => acc * 10 + (c.toNat - 48)) 0)
  else none

/-- Split a character list on the dot character. -/
def splitOnDot : List Char → List (List Char)
  | [] => [[]]
  | c :: rest =>
    let r := splitOnDot rest
    if c = '.' then [] :: r
    else
      match r with
      | [] => [[c]]
      | g :: gs => (c :: g) :: gs

/-- Parse a plain numeric semver version `X.Y.Z`.  Strings that are not of
this shape (in particular range strings such as `^4.0.0` or `*`) do not
parse; node-semver raises a TypeError for them wherever a version is
expected. -/
def parseVerChars (cs : List Char) : Option (Nat × Nat × Nat) :=
  match splitOnDot cs with
  | [a, b, c] =>
    match parseNumChars a, parseNumChars b, parseNumChars c with
    | some x, some y, some z => some (x, y, z)
    | _, _, _ => none
  | _ => none

def parseVer (s : String) : Option (Nat × Nat × Nat) :=
  parseVerChars s.toList

/-- Strict lexicographic order on parsed versions. -/
def verLt (a b : Nat × Nat × Nat) : Bool :=
  decide (a.1 < b.1) ||
    (decide (a.1 = b.1) &&
      (decide (a.2.1 < b.2.1) ||
        (decide (a.2.1 = b.2.1) && decide (a.2.2 < b.2.2))))

/-- The range forms the development exercises: the any-range `*`, caret
ranges `^X.Y.Z` and exact versions used as ranges. -/
inductive RangeSem where
  | anyV : RangeSem
  | caret : Nat × Nat × Nat → RangeSem
  | exact : Nat × Nat × Nat → RangeSem
deriving DecidableEq, Repr

/-- `new Range(r)` of the Version Comparator: an unparsable string yields no
range (node-semver throws, and every caller of the model catches that as
`none`). -/
def parseRange (r : String) : Option RangeSem :=
  if r = "*" then some RangeSem.anyV
  else
    match r.toList with
    | '^' :: rest => (parseVerChars rest).map RangeSem.caret
    | _ => (parseVer r).map RangeSem.exact

/-- `semver.satisfies` for the modelled range forms (caret keeps the major
component fixed and allows anything at or above the base version). -/
def satisfiesRange (v : String) (rs : RangeSem) : Bool :=
  match parseVer v with
  | none => false
  | some t =>
    match rs with
    | RangeSem.anyV => true
    | RangeSem.exact e => decide (t = e)
    | RangeSem.caret c => decide (t.1 = c.1) && (decide (c = t) || verLt c t)

/-- `semver.maxSatisfying(versions, range)`: the greatest version in the list
that satisfies the range, `none` when the range is unparsable or nothing
satisfies it. -/
def maxSatisfying (versions : List String) (range : String) : Option String :=
  match parseRange range with
  | none => none
  | some rs =>
    versions.foldl
      (fun acc v =>
        if satisfiesRange v rs then
          match acc with
          | none => some v
          | some a =>
            match parseVer a, parseVer v with
            | some ta, some tv => if verLt ta tv then some v else acc
            | _, _ => acc
        else acc)
      none

/-- `keys.filter(semver.valid).sort(semver.rcompare)[0]`: the greatest valid
version of a key list, used for the `latest` field. -/
def maxValid (keys : List String) : Option String :=
  keys.foldl
    (fun acc k =>
      match parseVer k with
      | none => acc
      | some v =>
        match acc with
        | none => some k
        | some a =>
          match parseVer a with
          | none => some k
          | some va => if verLt va v then some k else acc)
    none

/-- `semver.eq(a, b)`: equality of two concrete versions.  node-semver builds
`SemVer` instances from both arguments and throws a TypeError when either is
not a valid version; the model returns `none` for the throw. -/
def semverEq (a b : String) : Option Bool :=
  match parseVer a, parseVer b with
  | some x, some y => some (decide (x = y))
  | _, _ => none

def verToString (v : Nat × Nat × Nat) : String :=
  toString v.1 ++ "." ++ toString v.2.1 ++ "." ++ toString v.2.2

/-- `semver.validRange(r, true)`: the normalized range string, or `none` when
the range does not parse (caret ranges normalize to a `>=`/`<` pair exactly
as node-semver prints them). -/
def validRangeModel (r : String) : Option String :=
  match parseRange r with
  | none => none
  | some RangeSem.anyV => some "*"
  | some (RangeSem.exact v) => some (verToString v)
  | some (RangeSem.caret v) =>
    some (">=" ++ verToString v ++ " <" ++ verToString (v.1 + 1, 0, 0))

/-! ## Manifests and `Shrinkwrap.prototype.dedupe` (src/index.js:455-473) -/

/-- Generic first-match association-list lookup (`key in obj` / `obj[key]`). -/
def assocFind {α : Type} : List (String × α) → String → Option α
  | [], _ => none
  | p :: rest, k => if p.1 = k then some p.2 else assocFind rest k

/-- The four dependency groups a package body can carry
(`Shrinkwrap.dependencies`, src/index.js:492-497).  `none` is an absent
field. -/
structure Groups where
  dependencies : Option (List (String × String)) := none
  devDependencies : Option (List (String × String)) := none
  peerDependencies : Option (List (String × String)) := none
  optionalDependencies : Option (List (String × String)) := none
deriving DecidableEq, Repr

/-- The per-entry survival test of `dedupe`: a devDependencies entry is
deleted exactly when the same name is present in dependencies and
`semver.eq(devRange, depRange)` returns true without throwing
(src/index.js:460-470; the `try/catch` turns a throw into a skip). -/
def keepDev (deps : List (String × String)) (e : String × String) : Bool :=
  match assocFind deps e.1 with
  | none => true
  | some a =>
    match semverEq e.2 a with
    | some true => false
    | _ => true

/-- `Shrinkwrap.prototype.dedupe` on the dependency groups of a package body:
returns the body unchanged when dependencies or devDependencies is absent or
production mode is on, otherwise deletes the duplicated devDependencies
entries in place (src/index.js:455-473). -/
def dedupeGroups (production : Bool) (g : Groups) : Groups :=
  match g.dependencies with
  | none => g
  | some deps =>
    match g.devDependencies with
    | none => g
    | some dev =>
      if production then g
      else { g with devDependencies := some (dev.filter (keepDev deps)) }

/-- A package.json-like manifest: the four dependency groups plus the fields
`dedupe` never reads (name, version, and arbitrary further fields collected
in `extra`), recorded so that the frame of `dedupe` can be stated. -/
structure Manifest where
  name : Option String := none
  version : Option String := none
  groups : Groups := {}
  extra : List (String × String) := []
deriving DecidableEq, Repr

namespace Shrinkwrap

/-- `Shrinkwrap.prototype.dedupe` on a whole manifest.  The source function
reads and writes only the `dependencies`/`devDependencies` fields of the
object it is given and returns that same object, so on the record model it
is the group-level dedupe under an identity frame. -/
def dedupe (production : Bool) (m : Manifest) : Manifest :=
  { m with groups := dedupeGroups production m.groups }

/-! ## Graph nodes

A graph node reference: either the virtual root object `queue.data`
(src/index.js:174-176) or an entry of `queue.dependencytree`, addressed by
its `name@range` key.  Object identity of the mutable JS nodes is exactly
identity of these references, since the tree holds one object per key and
the root object is unique. -/

inductive NodeId where
  | root : NodeId
  | key : String → NodeId
deriving DecidableEq, Repr

/-- The `Module` entity (src/module.js:14-26).  `author` stands for the
`_npmUser` object (`none` models the `{}` fallback), `depth` is `none` when
the constructor was called without a depth argument, as
`Shrinkwrap.prototype.release` does. -/
structure Module where
  _id : String
  released : Option String
  licenses : Option String
  version : String
  author : Option String
  latest : Option String
  required : String
  name : String
  parents : List NodeId
  dependent : List NodeId
  depth : Option Nat
deriving DecidableEq, Repr

/-- A node of `queue.dependencytree`: a cloned `Module` plus the
`dependencies` property that the resolver attaches dynamically
(`ref.dependencies = ref.dependencies || {}` and
`parent.dependencies[spec.name] = ...`); the map stores tree keys, standing
for references to the shared child node.  No `parent` (singular) property
exists anywhere: neither the `Module` constructor nor the resolver ever
assigns one. -/
structure TreeNode where
  _id : String
  released : Option String
  licenses : Option String
  version : String
  author : Option String
  latest : Option String
  required : String
  name : String
  parents : List NodeId
  dependent : List NodeId
  depth : Option Nat
  dependencies : Option (List (String × String))
deriving DecidableEq, Repr

/-- `Module.prototype.clone` (src/module.js:60-75) followed by the override
object `{parents, depth}` that `queue.worker` passes (src/index.js:244-247):
the release metadata is copied, `dependent` restarts empty, and the clone has
no `dependencies` property yet. -/
def Module.clone (m : Module) (parents : List NodeId) (depth : Nat) : TreeNode :=
  { _id := m.name ++ "@" ++ m.required
  , released := m.released
  , licenses := m.licenses
  , version := m.version
  , author := m.author
  , latest := m.latest
  , required := m.required
  , name := m.name
  , parents := parents
  , dependent := []
  , depth := some depth
  , dependencies := none }

/-! ## The `pinned` getter (src/module.js:41-51)

The getter tests `this.range`.  The `Module` constructor stores its range
argument in `this.required` and nothing in the program ever assigns a
`range` property, so the property read yields `undefined`. -/

/-- The value of `this.range` on a `Module`: always `undefined`
(the constructor, `clone`, and both override call sites only set
`parents`/`depth`/`required`). -/
def Module.rangeProp (_m : Module) : Option String := none

/-- `semver.validRange` lifted to a possibly-undefined argument: on
`undefined` the Range constructor throws, which `validRange` catches,
yielding null. -/
def validRangeOf (r : Option String) : Option String :=
  r.bind validRangeModel

/-- The `pinned` getter (src/module.js:43-50): false for the literal `*` or
`latest`, false for a normalized range starting with `>=`, true otherwise —
all applied to the `this.range` property read. -/
def Module.pinned (m : Module) : Bool :=
  if m.rangeProp = some "*" ∨ m.rangeProp = some "latest" then false
  else
    match validRangeOf m.rangeProp with
    | some nr => !(nr.startsWith ">=")
    | none => true

/-! ## Registry Client model and the shapes built by
`Shrinkwrap.prototype.releases` / `Shrinkwrap.prototype.release`
(src/index.js:268-359) -/

/-- One version document of the registry's response for a package, as the
external `npm-registry` client hands it to `Shrinkwrap.prototype.releases`:
the fields the resolver reads (`released` stands for the `data.time[key]`
timestamp access, `npmUser` for `data._npmUser`). -/
structure RelDoc where
  name : String
  version : String
  released : Option String := none
  licenses : Option String := none
  npmUser : Option String := none
  groups : Groups := {}
deriving DecidableEq, Repr

/-- The Registry Client (`this.registry.packages.releases`): deterministic
per name, either a transport/HTTP error or the list of version documents in
key order. -/
inductive RegResp where
  | err : String → RegResp
  | ok : List (String × RelDoc) → RegResp
deriving Repr

/-- One entry of the `result.releases` map built by
`Shrinkwrap.prototype.releases` (src/index.js:288-305). -/
structure RelSmall where
  released : Option String
  licenses : Option String
  npmUser : Option String
  version : String
  name : String
  latest : Option String
  groups : Groups
deriving DecidableEq, Repr

/-- The value `Shrinkwrap.prototype.releases` caches per package name
(src/index.js:279-310). -/
structure ReleasesResult where
  latest : Option String
  releases : List (String × RelSmall)
  versions : List String
deriving DecidableEq, Repr

/-- The value `Shrinkwrap.prototype.release` caches per `name@range` key
(src/index.js:350-355): a fresh `Module` plus the dependency groups copied
off the release data. -/
structure RelEntry where
  module : Module
  groups : Groups
deriving DecidableEq, Repr

/-- The body of `Shrinkwrap.prototype.releases` after a successful registry
response (src/index.js:279-307): compute `latest` over the valid versions,
shrink each document, list the version keys. -/
def buildR (docs : List (String × RelDoc)) : ReleasesResult :=
  let keys := docs.map Prod.fst
  let latest := maxValid keys
  { latest := latest
  , releases := docs.map (fun p =>
      (p.1,
        { released := p.2.released
        , licenses := p.2.licenses
        , npmUser := p.2.npmUser
        , version := p.2.version
        , name := p.2.name
        , latest := latest
        , groups := p.2.groups }))
  , versions := keys }

/-- `new Module(data, range)` as `Shrinkwrap.prototype.release` performs it
(src/index.js:350, src/module.js:14-26; no depth argument). -/
def mkModule (d : RelSmall) (range : String) : Module :=
  { _id := d.name ++ "@" ++ range
  , released := d.released
  , licenses := d.licenses
  , version := d.version
  , author := d.npmUser
  , latest := d.latest
  , required := range
  , name := d.name
  , parents := []
  , dependent := []
  , depth := none }

/-- The range-resolution tail of `Shrinkwrap.prototype.release`
(src/index.js:334-357): pick `maxSatisfying`, index `result.releases`; a
missing version is the absent outcome (`return fn()`), otherwise the cache
entry is built. -/
def computeRel (r : ReleasesResult) (range : String) : Option RelEntry :=
  match maxSatisfying r.versions range with
  | none => none
  | some v =>
    (assocFind r.releases v).map (fun d => { module := mkModule d range, groups := d.groups })

/-- What the registry plus the releases-shaping yields for a name, ignoring
the cache: `none` on a registry error. -/
def regBuild (reg : String → RegResp) (n : String) : Option ReleasesResult :=
  match reg n with
  | RegResp.err _ => none
  | RegResp.ok docs => some (buildR docs)

/-- A `name@range` lookup is resolvable when the registry answers for the
name and some listed version satisfies the range: precisely the condition
under which `Shrinkwrap.prototype.release` reaches its success callback. -/
def resolvable (reg : String → RegResp) (n r : String) : Bool :=
  ((regBuild reg n).bind (fun rr => computeRel rr r)).isSome

/-! ## Resolver state (`Shrinkwrap.prototype.resolve`, src/index.js:125-259) -/

/-- A queued processing specification (src/index.js:151-157). -/
structure Spec where
  name : String
  range : String
  _id : String
  parents : List NodeId
  depth : Nat
deriving DecidableEq, Repr

/-- The instance cache `this.cache` (one JS object; its keys split into the
per-name releases results and the per-`name@range` release entries, which in
practice never collide). -/
structure Cache where
  byName : List (String × ReleasesResult) := []
  byKey : List (String × RelEntry) := []
deriving DecidableEq, Repr

/-- The whole mutable state of one `resolve` call: the queue structures
(`todolist`, `dependencytree`, `errors`), the root data object, the instance
fields touched by `destroy` (`cache`, `registryAlive` for `this.registry`),
the completion flag, and two observation logs — `dispatchLog` records each
invocation of `Shrinkwrap.prototype.release` by its `(name, range)` argument
pair and `netLog` each network call of the Registry Client by package
name. -/
structure RState where
  todolist : List Spec := []
  tree : List (String × TreeNode) := []
  errors : List String := []
  rootName : Option String := none
  rootVersion : Option String := none
  rootDeps : Option (List (String × String)) := none
  cache : Option Cache := some {}
  registryAlive : Bool := true
  done : Bool := false
  dispatchLog : List (String × String) := []
  netLog : List String := []
deriving DecidableEq, Repr

/-- Update the values bound to a key in an association list
(in-place object mutation through a reference). -/
def updateAssoc {α : Type} (l : List (String × α)) (k : String) (f : α → α) :
    List (String × α) :=
  l.map (fun p => if p.1 = k then (p.1, f p.2) else p)

/-- JS assignment `obj[k] = v`: overwrite an existing binding in place,
append a new one otherwise. -/
def assocSet {α : Type} (l : List (String × α)) (k : String) (v : α) :
    List (String × α) :=
  if (assocFind l k).isSome then l.map (fun p => if p.1 = k then (k, v) else p)
  else l ++ [(k, v)]

/-- `arr.filter(unique)` (src/index.js:22-24): keep the first occurrence of
each element. -/
def dedupFirst (l : List NodeId) : List NodeId :=
  l.foldl (fun acc x => if x ∈ acc then acc else acc ++ [x]) []

/-- The `name +'@'+ range` key. -/
def mkKey (n r : String) : String := n ++ "@" ++ r

/-- Occurrences of an element in a log. -/
def countOcc {α : Type} [DecidableEq α] (k : α) (l : List α) : Nat :=
  (l.filter (fun x => x = k)).length

/-! ## `Shrinkwrap.prototype.optimize` (src/index.js:369-443) -/

/-- The `parent(dependent)` walk (src/index.js:384-396): it repeatedly reads
`node.parent`.  No node this program builds ever carries a `parent`
(singular) property — the `Module` constructor sets `parents` and
`dependent`, `clone` overrides only `parents`/`depth`, and the root data
object has only `name`/`version`/`dependencies` — so `while (node.parent)`
is false immediately and the walk always returns the empty array.  (For the
same reason its helper `available` is never invoked.) -/
def parentChainOf (_s : RState) (_dep : NodeId) : List NodeId := []

/-- `arr.splice(arr.indexOf(x), 1)`: remove the first occurrence.  The
source only reaches this with `x` a current element of the array, so
`indexOf` is never `-1`. -/
def removeFirst : List NodeId → NodeId → List NodeId
  | [], _ => []
  | x :: xs, d => if x = d then xs else x :: removeFirst xs d

/-- The `dependent.map(...)` loop of `optimize` (src/index.js:421-437) as it
acts on `dependency.dependent`: `Array.prototype.map` fixes the iteration
bound at the array's initial length and at step `i` invokes the callback
only if index `i` still exists in the (spliced, hence shrunken) array; a
callback that found no parents splices the visited element out of the very
array being iterated.  The mapped result itself (and the `.filter` after it)
is assigned to a local that the unfinished function never uses, so only the
mutation of `dependent` is modelled. -/
def pruneGo (s : RState) : List NodeId → Nat → Nat → List NodeId
  | cur, _, 0 => cur
  | cur, i, rem + 1 =>
    if h : i < cur.length then
      let dep := cur.get ⟨i, h⟩
      if (parentChainOf s dep).length = 0 then
        pruneGo s (removeFirst cur dep) (i + 1) rem
      else pruneGo s cur (i + 1) rem
    else pruneGo s cur (i + 1) rem

def pruneDependents (s : RState) (l : List NodeId) : List NodeId :=
  pruneGo s l 0 l.length

/-- `Shrinkwrap.prototype.optimize` applied to the tree node at key `k`: the
only observable effect of the function is the splicing of
`dependency.dependent` performed inside the `map` callback. -/
def optimize (s : RState) (k : String) : RState :=
  match assocFind s.tree k with
  | none => s
  | some _ =>
    { s with
      tree := updateAssoc s.tree k
        (fun nd => { nd with dependent := pruneDependents s nd.dependent }) }

/-! ## `queue.push` (src/index.js:184-208) -/

/-- The `queue.todolist.some(...)` merge: update the first (in fact only)
todo entry with the same `_id`, unioning the parent sets with the `unique`
filter. -/
def mergeTodo : List Spec → Spec → List Spec
  | [], _ => []
  | t :: ts, sp =>
    if t._id = sp._id then
      { t with parents := dedupFirst (t.parents ++ sp.parents) } :: ts
    else t :: mergeTodo ts sp

/-- `queue.push(data)` (src/index.js:184-208): merge into a pending todo
entry with the same key; else, when the key is already resolved in the tree,
extend that node's `dependent` list and run `optimize` on it; else append to
the todolist. -/
def queuePush (s : RState) (sp : Spec) : RState :=
  if s.todolist.any (fun t => t._id = sp._id) then
    { s with todolist := mergeTodo s.todolist sp }
  else
    match assocFind s.tree sp._id with
    | some _ =>
      let s1 :=
        { s with
          tree := updateAssoc s.tree sp._id
            (fun nd => { nd with dependent := dedupFirst (nd.dependent ++ sp.parents) }) }
      optimize s1 sp._id
    | none => { s with todolist := s.todolist ++ [sp] }

/-! ## The scanning function `queue(packages, ref, depth)`
(src/index.js:139-162) -/

/-- `ref.dependencies = ref.dependencies || {}` on the referenced node. -/
def initRefDeps (s : RState) (ref : NodeId) : RState :=
  match ref with
  | NodeId.root => { s with rootDeps := some (s.rootDeps.getD []) }
  | NodeId.key k =>
    { s with
      tree := updateAssoc s.tree k
        (fun nd => { nd with dependencies := some (nd.dependencies.getD []) }) }

/-- `parent.dependencies[spec.name] = queue.dependencytree[spec._id]`
(src/index.js:249-251). -/
def setRefDep (s : RState) (ref : NodeId) (nm childKey : String) : RState :=
  match ref with
  | NodeId.root => { s with rootDeps := some (assocSet (s.rootDeps.getD []) nm childKey) }
  | NodeId.key k =>
    { s with
      tree := updateAssoc s.tree k
        (fun nd => { nd with dependencies := some (assocSet (nd.dependencies.getD []) nm childKey) }) }

/-- The body of the per-name loop in `queue()` (src/index.js:146-158):
initialize the ref's `dependencies` object, then push the spec built from
one dependency entry. -/
def pushSpec (ref : NodeId) (depth : Nat) (st : RState) (e : String × String) :
    RState :=
  queuePush (initRefDeps st ref)
    { name := e.1, range := e.2, _id := mkKey e.1 e.2, parents := [ref], depth := depth }

/-- The inner `Object.keys(packages[key]).forEach` loop over one dependency
group (src/index.js:146-158). -/
def scanGroup (s : RState) (group : Option (List (String × String))) (ref : NodeId)
    (depth : Nat) : RState :=
  match group with
  | none => s
  | some entries => entries.foldl (pushSpec ref depth) s

/-- `queue(packages, ref, depth)` (src/index.js:139-162): dedupe the body,
then scan the four dependency groups in the `Shrinkwrap.dependencies` order,
skipping devDependencies in production mode. -/
def enqueueGroups (production : Bool) (s : RState) (g : Groups) (ref : NodeId)
    (depth : Nat) : RState :=
  let gd := dedupeGroups production g
  let s1 := scanGroup s gd.dependencies ref depth
  let s2 := if production then s1 else scanGroup s1 gd.devDependencies ref depth
  let s3 := scanGroup s2 gd.peerDependencies ref depth
  scanGroup s3 gd.optionalDependencies ref depth

/-! ## `Shrinkwrap.prototype.release` / `.releases`
(src/index.js:268-359) -/

/-- Outcome passed to the worker's `release` callback: an error, the absent
outcome (`fn()` with neither error nor data, src/index.js:341-345), or a
release entry with the `cached` flag. -/
inductive ROut where
  | errR : String → ROut
  | absent : ROut
  | okR : RelEntry → Bool → ROut
deriving DecidableEq, Repr

def ROut.isOk : ROut → Bool
  | ROut.okR _ _ => true
  | _ => false

/-- `if (shrinkwrap.cache) shrinkwrap.cache[name] = result`
(src/index.js:309). -/
def cacheInsName (s : RState) (n : String) (r : ReleasesResult) : RState :=
  match s.cache with
  | none => s
  | some c => { s with cache := some { c with byName := assocSet c.byName n r } }

/-- `if (shrinkwrap.cache) shrinkwrap.cache[key] = cache`
(src/index.js:355). -/
def cacheInsKey (s : RState) (k : String) (e : RelEntry) : RState :=
  match s.cache with
  | none => s
  | some c => { s with cache := some { c with byKey := assocSet c.byKey k e } }

/-- The continuation of `release` once a `ReleasesResult` is at hand
(src/index.js:331-358): resolve the range, report absent, or cache and
return the fresh entry with `cached = false`. -/
def afterReleases (s : RState) (rr : ReleasesResult) (range key : String) :
    RState × ROut :=
  match computeRel rr range with
  | none => (s, ROut.absent)
  | some e => (cacheInsKey s key e, ROut.okR e false)

/-- The body of `Shrinkwrap.prototype.release(name, range, fn)`
(src/index.js:322-359) with the embedded `releases(name, fn)` call
(src/index.js:268-312), after the dispatch has been logged: serve a cached
key with `cached = true`; otherwise serve or fetch the per-name releases
result (a network call is logged in `netLog` on a cache miss, and the
result is cached only on success) and resolve the range against it. -/
def releaseCore (reg : String → RegResp) (s : RState) (n r : String) :
    RState × ROut :=
  match s.cache.bind (fun c => assocFind c.byKey (mkKey n r)) with
  | some e => (s, ROut.okR e true)
  | none =>
    match s.cache.bind (fun c => assocFind c.byName n) with
    | some rr => afterReleases s rr r (mkKey n r)
    | none =>
      match reg n with
      | RegResp.err e => ({ s with netLog := s.netLog ++ [n] }, ROut.errR e)
      | RegResp.ok docs =>
        afterReleases
          (cacheInsName { s with netLog := s.netLog ++ [n] } n (buildR docs))
          (buildR docs) r (mkKey n r)

/-- One invocation of `Shrinkwrap.prototype.release`: append the
`(name, range)` argument pair to `dispatchLog`, then run the body. -/
def releaseStep (reg : String → RegResp) (s0 : RState) (n r : String) :
    RState × ROut :=
  releaseCore reg { s0 with dispatchLog := s0.dispatchLog ++ [(n, r)] } n r

/-! ## `queue.worker` (src/index.js:215-256) -/

/-- `if (err) queue.errors.push(err)`. -/
def pushErr (s : RState) : Option String → RState
  | none => s
  | some e => { s with errors := s.errors ++ [e] }

/-- `this.cache = this.registry = null` plus delivery of the result: the
final callback receives the tree and error list first, then
`shrinkwrap.destroy()` runs (src/index.js:223-234, 481-483).  `done` marks
that the completion path was taken; `tree`/`errors` remain in the state as
the delivered snapshot. -/
def finishRun (s : RState) : RState :=
  { s with done := true, cache := none, registryAlive := false }

/-- The success path of the worker's `release` callback
(src/index.js:244-253): clone the module into the tree keyed by the spec id,
link it into every requesting parent's `dependencies` map, and — unless the
entry came from the cache — scan its dependency groups into the queue at the
next depth. -/
def insertResolved (production : Bool) (s1 : RState) (sp : Spec) (e : RelEntry)
    (cached : Bool) : RState :=
  let s2 := { s1 with tree := assocSet s1.tree sp._id (e.module.clone sp.parents sp.depth) }
  let s3 := sp.parents.foldl (fun st p => setRefDep st p sp.name sp._id) s2
  if cached then s3
  else enqueueGroups production s3 e.groups (NodeId.key sp._id) (sp.depth + 1)

/-- `queue.worker(err)` (src/index.js:215-256) iterated with explicit fuel:
record the incoming error, stop when the todolist is drained, otherwise
dispatch `release` for the head spec; on error or absent data continue with
the next item (passing the error along), on success run `insertResolved`.
The real worker is re-entered exactly once per callback, so the sequential
recursion is the code's own control flow; fuel only bounds it for totality
and every theorem either supplies enough fuel or holds for all fuel. -/
def runWorker (reg : String → RegResp) (production : Bool) :
    Nat → RState → Option String → RState
  | 0, s, eIn => pushErr s eIn
  | fuel + 1, s, eIn =>
    match (pushErr s eIn).todolist with
    | [] => finishRun (pushErr s eIn)
    | sp :: rest =>
      match releaseStep reg { pushErr s eIn with todolist := rest } sp.name sp.range with
      | (s1, ROut.errR e) => runWorker reg production fuel s1 (some e)
      | (s1, ROut.absent) => runWorker reg production fuel s1 none
      | (s1, ROut.okR e cached) =>
        runWorker reg production fuel (insertResolved production s1 sp e cached) none

/-- `Shrinkwrap.prototype.resolve(source, fn)` (src/index.js:125-259): set up
the root data object, seed the queue by scanning the (deduplicated) root
manifest at depth 0 with the virtual root as parent, then run the worker. -/
def resolve (reg : String → RegResp) (production : Bool) (src : Manifest)
    (fuel : Nat) : RState :=
  let s0 : RState := { rootName := src.name, rootVersion := src.version }
  runWorker reg production fuel
    (enqueueGroups production s0 src.groups NodeId.root 0) none

/-! ## Basic lemmas about the association-list operations -/

theorem isSome_false_eq_none {α : Type} {o : Option α} (h : o.isSome = false) :
    o = none := by
  cases o with
  | none => rfl
  | some v => simp at h

theorem filter_idem {α : Type} (p : α → Bool) (l : List α) :
    (l.filter p).filter p = l.filter p := by
  induction l with
  | nil => rfl
  | cons a t ih =>
    by_cases h : p a = true
    · simp [List.filter_cons, h, ih]
    · simp at h
      simp [List.filter_cons, h, ih]

theorem assocFind_append {α : Type} (l1 l2 : List (String × α)) (k : String) :
    assocFind (l1 ++ l2) k =
      match assocFind l1 k with
      | some v => some v
      | none => assocFind l2 k := by
  induction l1 with
  | nil => simp [assocFind]
  | cons p rest ih =>
    by_cases h : p.1 = k
    · simp [assocFind, h]
    · simp [assocFind, h, ih]

theorem assocFind_updateAssoc {α : Type} (l : List (String × α)) (k : String)
    (f : α → α) (k2 : String) :
    assocFind (updateAssoc l k f) k2 =
      match assocFind l k2 with
      | none => none
      | some v => some (if k2 = k then f v else v) := by
  induction l with
  | nil => rfl
  | cons p rest ih =>
    obtain ⟨pk, pv⟩ := p
    simp only [updateAssoc, List.map_cons] at ih ⊢
    by_cases h1 : pk = k
    · subst h1
      by_cases h2 : pk = k2
      · subst h2
        simp [assocFind]
      · simpa [assocFind, h2] using ih
    · by_cases h2 : pk = k2
      · subst h2
        simp [assocFind, h1]
      · simpa [assocFind, h1, h2] using ih

theorem isSome_assocFind_updateAssoc {α : Type} (l : List (String × α))
    (k : String) (f : α → α) (k2 : String) :
    (assocFind (updateAssoc l k f) k2).isSome = (assocFind l k2).isSome := by
  rw [assocFind_updateAssoc]
  cases assocFind l k2 <;> simp

theorem assocFind_map_overwrite {α : Type} (l : List (String × α)) (k : String)
    (v : α) (k2 : String) (h : ¬ k2 = k) :
    assocFind (l.map (fun p => if p.1 = k then (k, v) else p)) k2 =
      assocFind l k2 := by
  induction l with
  | nil => rfl
  | cons p rest ih =>
    obtain ⟨pk, pv⟩ := p
    by_cases h1 : pk = k
    · subst h1
      have h2 : ¬ pk = k2 := fun he => h (he.symm)
      simpa [assocFind, h2] using ih
    · by_cases h2 : pk = k2
      · subst h2
        simp [assocFind, h1]
      · simpa [assocFind, h1, h2] using ih

theorem assocFind_map_overwrite_self {α : Type} (l : List (String × α))
    (k : String) (v : α) (w : α) (h : assocFind l k = some w) :
    assocFind (l.map (fun p => if p.1 = k then (k, v) else p)) k = some v := by
  induction l with
  | nil => simp [assocFind] at h
  | cons p rest ih =>
    obtain ⟨pk, pv⟩ := p
    by_cases h1 : pk = k
    · subst h1
      simp [assocFind]
    · simp only [assocFind, if_neg h1] at h
      simpa [assocFind, h1] using ih h

theorem assocFind_assocSet {α : Type} (l : List (String × α)) (k : String)
    (v : α) (k2 : String) :
    assocFind (assocSet l k v) k2 = if k2 = k then some v else assocFind l k2 := by
  cases hw : assocFind l k with
  | some w =>
    have hp : (assocFind l k).isSome = true := by simp [hw]
    unfold assocSet
    rw [if_pos hp]
    by_cases h2 : k2 = k
    · subst h2
      rw [if_pos rfl]
      exact assocFind_map_overwrite_self l k2 v w hw
    · rw [if_neg h2]
      exact assocFind_map_overwrite l k v k2 h2
  | none =>
    have hp : ¬ (assocFind l k).isSome = true := by simp [hw]
    unfold assocSet
    rw [if_neg hp, assocFind_append]
    by_cases h2 : k2 = k
    · subst h2
      rw [hw]
      simp [assocFind]
    · cases hfind : assocFind l k2 with
      | none =>
        have hne : ¬ k = k2 := fun he => h2 he.symm
        simp [assocFind, hne, h2, hfind]
      | some w => simp [hfind, h2]

theorem isSome_assocFind_assocSet_of_isSome {α : Type} (l : List (String × α))
    (k : String) (v : α) (k2 : String) (h : (assocFind l k2).isSome = true) :
    (assocFind (assocSet l k v) k2).isSome = true := by
  rw [assocFind_assocSet]
  by_cases h2 : k2 = k <;> simp [h2, h]

theorem keysNodup_value_eq {α : Type} {l : List (String × α)}
    (h : (l.map Prod.fst).Nodup) {n : String} {b c : α}
    (hb : (n, b) ∈ l) (hc : (n, c) ∈ l) : b = c := by
  induction l with
  | nil => cases hb
  | cons hd tl ih =>
    rw [List.map_cons, List.nodup_cons] at h
    rcases List.mem_cons.mp hb with hb1 | hb2
    · rcases List.mem_cons.mp hc with hc1 | hc2
      · have hbc : (n, b) = ((n, c) : String × α) := hb1.trans hc1.symm
        exact (Prod.ext_iff.mp hbc).2
      · exfalso
        apply h.1
        rw [← hb1]
        exact List.mem_map.mpr ⟨(n, c), hc2, rfl⟩
    · rcases List.mem_cons.mp hc with hc1 | hc2
      · exfalso
        apply h.1
        rw [← hc1]
        exact List.mem_map.mpr ⟨(n, b), hb2, rfl⟩
      · exact ih h.2 hb2 hc2

/-! ## Deduplication lemmas and claims C7, C10, C3 -/

theorem dedupeGroups_idem (production : Bool) (g : Groups) :
    dedupeGroups production (dedupeGroups production g) = dedupeGroups production g := by
  cases hd : g.dependencies with
  | none => simp [dedupeGroups, hd]
  | some deps =>
    cases hv : g.devDependencies with
    | none => simp [dedupeGroups, hd, hv]
    | some dev =>
      by_cases hp : production = true
      · simp [dedupeGroups, hd, hv, hp]
      · simp only [Bool.not_eq_true] at hp
        simp [dedupeGroups, hd, hv, hp, filter_idem]

/-- C7: `dedupe` is idempotent — running it on its own output is the
identity, for every manifest and in both production modes. -/
theorem c7_dedupe_idempotent (production : Bool) (m : Manifest) :
    Shrinkwrap.dedupe production (Shrinkwrap.dedupe production m) =
      Shrinkwrap.dedupe production m := by
  simp only [Shrinkwrap.dedupe]
  rw [dedupeGroups_idem]

/-- C10: `dedupe` only ever deletes devDependencies entries: the manifest's
name, version, other fields, and the dependencies/peerDependencies/
optionalDependencies groups are returned unchanged, and the devDependencies
group of the result is a filtering (a subsequence) of the input group. -/
theorem c10_dedupe_frame (production : Bool) (m : Manifest) :
    (Shrinkwrap.dedupe production m).name = m.name ∧
    (Shrinkwrap.dedupe production m).version = m.version ∧
    (Shrinkwrap.dedupe production m).extra = m.extra ∧
    (Shrinkwrap.dedupe production m).groups.dependencies = m.groups.dependencies ∧
    (Shrinkwrap.dedupe production m).groups.peerDependencies = m.groups.peerDependencies ∧
    (Shrinkwrap.dedupe production m).groups.optionalDependencies =
      m.groups.optionalDependencies ∧
    ∃ p : String × String → Bool,
      (Shrinkwrap.dedupe production m).groups.devDependencies =
        m.groups.devDependencies.map (fun l => l.filter p) := by
  refine ⟨rfl, rfl, rfl, ?_, ?_, ?_, ?_⟩ <;>
    simp only [Shrinkwrap.dedupe]
  · cases hd : m.groups.dependencies with
    | none => simp [dedupeGroups, hd]
    | some deps =>
      cases hv : m.groups.devDependencies with
      | none => simp [dedupeGroups, hd, hv]
      | some dev =>
        by_cases hp : production = true <;> simp [dedupeGroups, hd, hv, hp]
  · cases hd : m.groups.dependencies with
    | none => simp [dedupeGroups, hd]
    | some deps =>
      cases hv : m.groups.devDependencies with
      | none => simp [dedupeGroups, hd, hv]
      | some dev =>
        by_cases hp : production = true <;> simp [dedupeGroups, hd, hv, hp]
  · cases hd : m.groups.dependencies with
    | none => simp [dedupeGroups, hd]
    | some deps =>
      cases hv : m.groups.devDependencies with
      | none => simp [dedupeGroups, hd, hv]
      | some dev =>
        by_cases hp : production = true <;> simp [dedupeGroups, hd, hv, hp]
  · cases hd : m.groups.dependencies with
    | none =>
      refine ⟨fun _ => true, ?_⟩
      simp [dedupeGroups, hd, List.filter_true]
    | some deps =>
      cases hv : m.groups.devDependencies with
      | none => exact ⟨fun _ => true, by simp [dedupeGroups, hd, hv]⟩
      | some dev =>
        by_cases hp : production = true
        · refine ⟨fun _ => true, ?_⟩
          simp [dedupeGroups, hd, hv, hp, List.filter_true]
        · refine ⟨keepDev deps, ?_⟩
          simp only [Bool.not_eq_true] at hp
          simp [dedupeGroups, hd, hv, hp]

/-- The manifest of the spec's dedupe scenario: lodash declared with the
range `^4.0.0` both as a dependency and as a devDependency. -/
def mLodashCaret : Manifest :=
  { groups :=
      { dependencies := some [("lodash", "^4.0.0")]
      , devDependencies := some [("lodash", "^4.0.0")] } }

/-- C3 counterexample: on the claimed scenario the devDependencies entry
survives — `semver.eq` throws on the non-version string `^4.0.0`, the catch
skips the name, and nothing is deleted. -/
theorem c3_counterexample :
    (Shrinkwrap.dedupe false mLodashCaret).groups.devDependencies =
      some [("lodash", "^4.0.0")] := by
  decide

/-- C3 (amended): a name present in both groups is deleted from
devDependencies exactly when both declared strings parse as concrete semver
versions that are equal; the duplicate-keys-free hypothesis mirrors a JS
object's key uniqueness. -/
theorem c3_dedupe_deletes_equal_concrete_versions
    (m : Manifest) (n a b : String) (deps dev : List (String × String))
    (hdeps : m.groups.dependencies = some deps)
    (hdev : m.groups.devDependencies = some dev)
    (hnd : (dev.map Prod.fst).Nodup)
    (ha : assocFind deps n = some a)
    (hb : (n, b) ∈ dev)
    (heq : semverEq b a = some true) :
    ∀ c : String,
      (n, c) ∉ ((Shrinkwrap.dedupe false m).groups.devDependencies.getD []) := by
  intro c hmem
  have hres : (Shrinkwrap.dedupe false m).groups.devDependencies =
      some (dev.filter (keepDev deps)) := by
    simp [Shrinkwrap.dedupe, dedupeGroups, hdeps, hdev]
  rw [hres] at hmem
  simp only [Option.getD_some] at hmem
  have hmem2 := List.mem_filter.mp hmem
  have hcb : c = b := keysNodup_value_eq hnd hmem2.1 hb
  subst hcb
  have : keepDev deps (n, c) = false := by
    simp [keepDev, ha, heq]
  rw [this] at hmem2
  cases hmem2.2

/-- The same manifest with the concrete version `4.0.0` in both groups. -/
def mLodashExact : Manifest :=
  { groups :=
      { dependencies := some [("lodash", "4.0.0")]
      , devDependencies := some [("lodash", "4.0.0")] } }

theorem c3_witness :
    semverEq "4.0.0" "4.0.0" = some true ∧
    ∀ c : String,
      ("lodash", c) ∉ ((Shrinkwrap.dedupe false mLodashExact).groups.devDependencies.getD []) :=
  ⟨by decide,
    c3_dedupe_deletes_equal_concrete_versions mLodashExact "lodash" "4.0.0" "4.0.0"
      [("lodash", "4.0.0")] [("lodash", "4.0.0")] rfl rfl (by decide) (by decide)
      (by decide) (by decide)⟩

/-! ## Claim C9: the `pinned` getter -/

/-- C9: the `pinned` getter is constantly true, whatever the module's
`required` range is — it tests the nonexistent `this.range` property
(`undefined`), for which every branch of the getter falls through to
`return true`.  In particular a module whose `required` is `*` or `latest`
still reports `pinned = true`, against the claim. -/
theorem c9_pinned_constantly_true (m : Module) : m.pinned = true := rfl

/-! ## Claims C2 and C8: the optimizer -/

/-- A tree node with two dependents, as `queue.push` produces it when a
`name@range` key is requested a third time: the natural situation in which
`optimize` runs.  Neither dependent node (nor any node in the program) has a
`parent` reference, so both candidate hoist paths are empty. -/
def c2Node : TreeNode :=
  { _id := "m@1.0.0", released := none, licenses := none, version := "1.0.0"
  , author := none, latest := some "1.0.0", required := "1.0.0", name := "m"
  , parents := [NodeId.root]
  , dependent := [NodeId.key "d1@1.0.0", NodeId.key "d2@1.0.0"]
  , depth := some 1, dependencies := none }

def c2State : RState := { tree := [("m@1.0.0", c2Node)] }

/-- C2: with two dependents whose candidate paths are both empty, `optimize`
removes only the first — splicing the array that `map` is iterating shifts
the second dependent into the just-visited index, and `map` skips it.  The
claim predicts an empty dependents list; the code leaves `[d2]`. -/
theorem c2_optimize_keeps_second_empty_path_dependent :
    (assocFind (optimize c2State "m@1.0.0").tree "m@1.0.0").map
        (fun nd => nd.dependent) =
      some [NodeId.key "d2@1.0.0"] := by
  decide

/-- The same starting state under its own name for claim C8. -/
def c8Node : TreeNode :=
  { _id := "m@1.0.0", released := none, licenses := none, version := "1.0.0"
  , author := none, latest := some "1.0.0", required := "1.0.0", name := "m"
  , parents := [NodeId.root]
  , dependent := [NodeId.key "d1@1.0.0", NodeId.key "d2@1.0.0"]
  , depth := some 1, dependencies := none }

def c8State : RState := { tree := [("m@1.0.0", c8Node)] }

/-- C8: `optimize` is not idempotent.  The first call leaves the dependents
list `[d2]` (see C2); a second call with no new dependents added removes
`d2` as well, changing the graph again. -/
theorem c8_optimize_second_call_changes_graph :
    (assocFind (optimize c8State "m@1.0.0").tree "m@1.0.0").map
        (fun nd => nd.dependent) = some [NodeId.key "d2@1.0.0"] ∧
    (assocFind (optimize (optimize c8State "m@1.0.0") "m@1.0.0").tree "m@1.0.0").map
        (fun nd => nd.dependent) = some ([] : List NodeId) := by
  constructor
  · decide
  · decide

/-! ## Concrete resolution scenarios (claims C1, C4, C5, C6) -/

/-- C1 scenario: the root needs `A@1.0.0` and `B@1.0.0`; the registry fails
for `A` and serves `B`, whose own manifest needs `A@1.0.0` again. -/
def c1DocB : RelDoc :=
  { name := "B", version := "1.0.0"
  , groups := { dependencies := some [("A", "1.0.0")] } }

def c1Reg : String → RegResp := fun n =>
  if n = "A" then RegResp.err "E_A"
  else if n = "B" then RegResp.ok [("1.0.0", c1DocB)]
  else RegResp.err "unknown"

def c1Src : Manifest :=
  { name := some "app", version := some "0.0.0"
  , groups := { dependencies := some [("A", "1.0.0"), ("B", "1.0.0")] } }

/-- C1 counterexample: `release` is dispatched twice with the argument pair
`("A", "1.0.0")` — the first lookup fails, the spec is dropped from all
bookkeeping, and B's dependency on the same key is queued and dispatched
afresh.  The claim's "at most once per distinct name@range key" is violated
for keys whose lookup fails. -/
theorem c1_counterexample :
    countOcc ("A", "1.0.0") (resolve c1Reg false c1Src 10).dispatchLog = 2 := by
  decide

/-- C4 scenario: two root dependencies, `A`'s lookup fails with an error
naming the spec, `B`'s succeeds and has no further dependencies. -/
def c4DocB : RelDoc := { name := "B", version := "1.0.0" }

def c4Reg : String → RegResp := fun n =>
  if n = "A" then RegResp.err "cannot resolve A@1.0.0"
  else if n = "B" then RegResp.ok [("1.0.0", c4DocB)]
  else RegResp.err "unknown"

def c4Src : Manifest :=
  { name := some "app", version := some "0.0.0"
  , groups := { dependencies := some [("A", "1.0.0"), ("B", "1.0.0")] } }

/-- C4: the failing lookup's error is recorded and the run continues — `A`
is queued first and fails, `B` is still processed afterwards; the delivered
tree holds exactly B's module (linked from the root), the errors list holds
exactly the one error produced by A's lookup, and the resolution runs to
completion. -/
theorem c4_partial_failure_tolerance :
    (resolve c4Reg false c4Src 10).errors = ["cannot resolve A@1.0.0"] ∧
    (assocFind (resolve c4Reg false c4Src 10).tree "B@1.0.0").map
        (fun nd => nd.version) = some "1.0.0" ∧
    assocFind (resolve c4Reg false c4Src 10).tree "A@1.0.0" = none ∧
    assocFind ((resolve c4Reg false c4Src 10).rootDeps.getD []) "B" =
      some "B@1.0.0" ∧
    (resolve c4Reg false c4Src 10).done = true := by
  refine ⟨?_, ?_, ?_, ?_, ?_⟩ <;> decide

/-- C5 scenario: the root needs `C@2.0.0`, but the registry only publishes
`C` at version `1.0.0` (the absent outcome), and also needs `B@1.0.0`,
which resolves. -/
def c5DocC : RelDoc := { name := "C", version := "1.0.0" }

def c5DocB : RelDoc := { name := "B", version := "1.0.0" }

def c5Reg : String → RegResp := fun n =>
  if n = "C" then RegResp.ok [("1.0.0", c5DocC)]
  else if n = "B" then RegResp.ok [("1.0.0", c5DocB)]
  else RegResp.err "unknown"

def c5Src : Manifest :=
  { name := some "app", version := some "0.0.0"
  , groups := { dependencies := some [("C", "2.0.0"), ("B", "1.0.0")] } }

/-- C5 counterexample: the unsatisfiable spec `C@2.0.0` is dispatched
(once), yields the absent outcome, and the delivered errors list is empty —
no unsatisfiable-range condition is recorded, against the claim. -/
theorem c5_counterexample :
    countOcc ("C", "2.0.0") (resolve c5Reg false c5Src 10).dispatchLog = 1 ∧
    assocFind (resolve c5Reg false c5Src 10).tree "C@2.0.0" = none ∧
    (resolve c5Reg false c5Src 10).errors = [] := by
  refine ⟨?_, ?_, ?_⟩ <;> decide

/-- C5 (amended): the absent outcome is skipped silently — nothing enters
the tree for the spec, nothing enters the errors list, and resolution
continues with the remaining queue items to completion. -/
theorem c5_absent_outcome_skipped_silently :
    (resolve c5Reg false c5Src 10).errors = [] ∧
    assocFind (resolve c5Reg false c5Src 10).tree "C@2.0.0" = none ∧
    (assocFind (resolve c5Reg false c5Src 10).tree "B@1.0.0").isSome = true ∧
    (resolve c5Reg false c5Src 10).done = true := by
  refine ⟨?_, ?_, ?_, ?_⟩ <;> decide

/-- C6 scenario: a single dependency that resolves cleanly. -/
def c6DocB : RelDoc := { name := "B", version := "1.0.0" }

def c6Reg : String → RegResp := fun n =>
  if n = "B" then RegResp.ok [("1.0.0", c6DocB)]
  else RegResp.err "unknown"

def c6Src : Manifest :=
  { name := some "app", version := some "0.0.0"
  , groups := { dependencies := some [("B", "1.0.0")] } }

/-- C6 counterexample: the cache does not survive a completed `resolve` —
the completion path itself invokes `destroy`, nulling the cache (and the
registry reference), so no second resolve can find a warm cache. -/
theorem c6_counterexample :
    (resolve c6Reg false c6Src 10).done = true ∧
    (resolve c6Reg false c6Src 10).cache = none ∧
    (resolve c6Reg false c6Src 10).registryAlive = false := by
  refine ⟨?_, ?_, ?_⟩ <;> decide

/-! ## Frame lemmas: the graph-side mutators (`queue.push`, `optimize`, the
dependency-map writes) never touch the completion flag, the cache, the
error list, or the logs, and never add or remove tree keys. -/

structure Frame (s t : RState) : Prop where
  fdone : t.done = s.done
  fcache : t.cache = s.cache
  fdlog : t.dispatchLog = s.dispatchLog
  fnlog : t.netLog = s.netLog
  ferrs : t.errors = s.errors
  falive : t.registryAlive = s.registryAlive
  ftreeSome : ∀ k, (assocFind t.tree k).isSome = (assocFind s.tree k).isSome

theorem frameRefl (s : RState) : Frame s s :=
  ⟨rfl, rfl, rfl, rfl, rfl, rfl, fun _ => rfl⟩

theorem Frame.comp {s t u : RState} (h1 : Frame s t) (h2 : Frame t u) :
    Frame s u :=
  ⟨h2.fdone.trans h1.fdone, h2.fcache.trans h1.fcache, h2.fdlog.trans h1.fdlog,
    h2.fnlog.trans h1.fnlog, h2.ferrs.trans h1.ferrs, h2.falive.trans h1.falive,
    fun k => (h2.ftreeSome k).trans (h1.ftreeSome k)⟩

theorem frame_tree_update (s : RState) (k : String) (f : TreeNode → TreeNode) :
    Frame s { s with tree := updateAssoc s.tree k f } :=
  ⟨rfl, rfl, rfl, rfl, rfl, rfl, fun k2 => isSome_assocFind_updateAssoc s.tree k f k2⟩

theorem frame_optimize (s : RState) (k : String) : Frame s (optimize s k) := by
  unfold optimize
  split
  · exact frameRefl s
  · exact frame_tree_update s k _

theorem frame_queuePush (s : RState) (sp : Spec) : Frame s (queuePush s sp) := by
  unfold queuePush
  split
  · exact ⟨rfl, rfl, rfl, rfl, rfl, rfl, fun _ => rfl⟩
  · split
    · exact Frame.comp (frame_tree_update s sp._id _) (frame_optimize _ _)
    · exact ⟨rfl, rfl, rfl, rfl, rfl, rfl, fun _ => rfl⟩

theorem frame_initRefDeps (s : RState) (ref : NodeId) :
    Frame s (initRefDeps s ref) := by
  cases ref with
  | root => exact ⟨rfl, rfl, rfl, rfl, rfl, rfl, fun _ => rfl⟩
  | key k => exact frame_tree_update s k _

theorem frame_setRefDep (s : RState) (ref : NodeId) (nm ck : String) :
    Frame s (setRefDep s ref nm ck) := by
  cases ref with
  | root => exact ⟨rfl, rfl, rfl, rfl, rfl, rfl, fun _ => rfl⟩
  | key k => exact frame_tree_update s k _

theorem frame_pushSpec (ref : NodeId) (depth : Nat) (st : RState)
    (e : String × String) : Frame st (pushSpec ref depth st e) :=
  Frame.comp (frame_initRefDeps st ref) (frame_queuePush _ _)

theorem frame_foldl_pushSpec (entries : List (String × String)) (ref : NodeId)
    (depth : Nat) : ∀ s : RState, Frame s (entries.foldl (pushSpec ref depth) s) := by
  induction entries with
  | nil => intro s; exact frameRefl s
  | cons e t ih =>
    intro s
    rw [List.foldl_cons]
    exact Frame.comp (frame_pushSpec ref depth s e) (ih _)

theorem frame_scanGroup (s : RState) (group : Option (List (String × String)))
    (ref : NodeId) (depth : Nat) : Frame s (scanGroup s group ref depth) := by
  cases group with
  | none => exact frameRefl s
  | some entries => exact frame_foldl_pushSpec entries ref depth s

theorem frame_enqueueGroups (production : Bool) (s : RState) (g : Groups)
    (ref : NodeId) (depth : Nat) : Frame s (enqueueGroups production s g ref depth) := by
  unfold enqueueGroups
  dsimp only
  refine Frame.comp ?_ (frame_scanGroup _ _ _ _)
  refine Frame.comp ?_ (frame_scanGroup _ _ _ _)
  split
  · exact frame_scanGroup _ _ _ _
  · exact Frame.comp (frame_scanGroup _ _ _ _) (frame_scanGroup _ _ _ _)

theorem frame_foldl_setRefDep (parents : List NodeId) (nm ck : String) :
    ∀ s : RState, Frame s (parents.foldl (fun st p => setRefDep st p nm ck) s) := by
  induction parents with
  | nil => intro s; exact frameRefl s
  | cons p t ih =>
    intro s
    rw [List.foldl_cons]
    exact Frame.comp (frame_setRefDep s p nm ck) (ih _)

theorem pushErr_frame (s : RState) (eIn : Option String) :
    (pushErr s eIn).todolist = s.todolist ∧ (pushErr s eIn).tree = s.tree ∧
    (pushErr s eIn).done = s.done ∧ (pushErr s eIn).cache = s.cache ∧
    (pushErr s eIn).dispatchLog = s.dispatchLog ∧
    (pushErr s eIn).registryAlive = s.registryAlive := by
  cases eIn <;> exact ⟨rfl, rfl, rfl, rfl, rfl, rfl⟩

theorem cacheInsName_frame (s : RState) (n : String) (rr : ReleasesResult) :
    (cacheInsName s n rr).todolist = s.todolist ∧
    (cacheInsName s n rr).tree = s.tree ∧
    (cacheInsName s n rr).errors = s.errors ∧
    (cacheInsName s n rr).done = s.done ∧
    (cacheInsName s n rr).registryAlive = s.registryAlive ∧
    (cacheInsName s n rr).dispatchLog = s.dispatchLog := by
  unfold cacheInsName
  split
  · exact ⟨rfl, rfl, rfl, rfl, rfl, rfl⟩
  · exact ⟨rfl, rfl, rfl, rfl, rfl, rfl⟩

theorem cacheInsKey_frame (s : RState) (k : String) (e : RelEntry) :
    (cacheInsKey s k e).todolist = s.todolist ∧
    (cacheInsKey s k e).tree = s.tree ∧
    (cacheInsKey s k e).errors = s.errors ∧
    (cacheInsKey s k e).done = s.done ∧
    (cacheInsKey s k e).registryAlive = s.registryAlive ∧
    (cacheInsKey s k e).dispatchLog = s.dispatchLog := by
  unfold cacheInsKey
  split
  · exact ⟨rfl, rfl, rfl, rfl, rfl, rfl⟩
  · exact ⟨rfl, rfl, rfl, rfl, rfl, rfl⟩

theorem afterReleases_frame (s : RState) (rr : ReleasesResult) (range key : String) :
    (afterReleases s rr range key).1.todolist = s.todolist ∧
    (afterReleases s rr range key).1.tree = s.tree ∧
    (afterReleases s rr range key).1.errors = s.errors ∧
    (afterReleases s rr range key).1.done = s.done ∧
    (afterReleases s rr range key).1.registryAlive = s.registryAlive ∧
    (afterReleases s rr range key).1.dispatchLog = s.dispatchLog := by
  unfold afterReleases
  split
  · exact ⟨rfl, rfl, rfl, rfl, rfl, rfl⟩
  · exact cacheInsKey_frame _ _ _

theorem releaseCore_frame (reg : String → RegResp) (s : RState) (n r : String) :
    (releaseCore reg s n r).1.todolist = s.todolist ∧
    (releaseCore reg s n r).1.tree = s.tree ∧
    (releaseCore reg s n r).1.errors = s.errors ∧
    (releaseCore reg s n r).1.done = s.done ∧
    (releaseCore reg s n r).1.registryAlive = s.registryAlive ∧
    (releaseCore reg s n r).1.dispatchLog = s.dispatchLog := by
  unfold releaseCore
  split
  · exact ⟨rfl, rfl, rfl, rfl, rfl, rfl⟩
  · split
    · exact afterReleases_frame _ _ _ _
    · split
      · exact ⟨rfl, rfl, rfl, rfl, rfl, rfl⟩
      · rename_i docs hdocs
        have h1 := afterReleases_frame
          (cacheInsName { s with netLog := s.netLog ++ [n] } n (buildR docs))
          (buildR docs) r (mkKey n r)
        have h2 := cacheInsName_frame { s with netLog := s.netLog ++ [n] } n (buildR docs)
        exact ⟨h1.1.trans h2.1, h1.2.1.trans h2.2.1, h1.2.2.1.trans h2.2.2.1,
          h1.2.2.2.1.trans h2.2.2.2.1, h1.2.2.2.2.1.trans h2.2.2.2.2.1,
          h1.2.2.2.2.2.trans h2.2.2.2.2.2⟩

theorem releaseStep_frame (reg : String → RegResp) (s : RState) (n r : String) :
    (releaseStep reg s n r).1.todolist = s.todolist ∧
    (releaseStep reg s n r).1.tree = s.tree ∧
    (releaseStep reg s n r).1.errors = s.errors ∧
    (releaseStep reg s n r).1.done = s.done ∧
    (releaseStep reg s n r).1.registryAlive = s.registryAlive ∧
    (releaseStep reg s n r).1.dispatchLog = s.dispatchLog ++ [(n, r)] := by
  have h := releaseCore_frame reg { s with dispatchLog := s.dispatchLog ++ [(n, r)] } n r
  exact ⟨h.1, h.2.1, h.2.2.1, h.2.2.2.1, h.2.2.2.2.1, h.2.2.2.2.2⟩

theorem insertResolved_obs (production : Bool) (s1 : RState) (sp : Spec)
    (e : RelEntry) (cached : Bool) :
    (insertResolved production s1 sp e cached).done = s1.done ∧
    (insertResolved production s1 sp e cached).cache = s1.cache ∧
    (insertResolved production s1 sp e cached).dispatchLog = s1.dispatchLog ∧
    (insertResolved production s1 sp e cached).errors = s1.errors ∧
    (insertResolved production s1 sp e cached).registryAlive = s1.registryAlive := by
  unfold insertResolved
  dsimp only
  split
  · have h3 := frame_foldl_setRefDep sp.parents sp.name sp._id
      { s1 with tree := assocSet s1.tree sp._id (e.module.clone sp.parents sp.depth) }
    exact ⟨h3.fdone, h3.fcache, h3.fdlog, h3.ferrs, h3.falive⟩
  · have h3 := frame_foldl_setRefDep sp.parents sp.name sp._id
      { s1 with tree := assocSet s1.tree sp._id (e.module.clone sp.parents sp.depth) }
    have h4 := frame_enqueueGroups production
      (sp.parents.foldl (fun st p => setRefDep st p sp.name sp._id)
        { s1 with tree := assocSet s1.tree sp._id (e.module.clone sp.parents sp.depth) })
      e.groups (NodeId.key sp._id) (sp.depth + 1)
    exact ⟨h4.fdone.trans h3.fdone, h4.fcache.trans h3.fcache,
      h4.fdlog.trans h3.fdlog, h4.ferrs.trans h3.ferrs, h4.falive.trans h3.falive⟩

/-! ## Claim C6: the completion path destroys the instance -/

theorem runWorker_destroyed_of_done (reg : String → RegResp) (production : Bool) :
    ∀ (fuel : Nat) (s : RState) (eIn : Option String), s.done = false →
      (runWorker reg production fuel s eIn).done = true →
      (runWorker reg production fuel s eIn).cache = none ∧
        (runWorker reg production fuel s eIn).registryAlive = false := by
  intro fuel
  induction fuel with
  | zero =>
    intro s eIn h0 hdone
    exfalso
    have : (runWorker reg production 0 s eIn).done = s.done :=
      (pushErr_frame s eIn).2.2.1
    rw [this, h0] at hdone
    exact Bool.false_ne_true hdone
  | succ n ih =>
    intro s eIn h0 hdone
    rw [runWorker] at hdone ⊢
    cases hsp : (pushErr s eIn).todolist with
    | nil =>
      simp only [hsp] at hdone ⊢
      exact ⟨rfl, rfl⟩
    | cons sp rest =>
      simp only [hsp] at hdone ⊢
      have hfr := releaseStep_frame reg { pushErr s eIn with todolist := rest }
        sp.name sp.range
      rcases hrel : releaseStep reg { pushErr s eIn with todolist := rest }
        sp.name sp.range with ⟨s1, out⟩
      rw [hrel] at hfr
      have hs1done : s1.done = false := by
        have h1 : s1.done = s.done := hfr.2.2.2.1.trans (pushErr_frame s eIn).2.2.1
        rw [h1, h0]
      simp only [hrel] at hdone ⊢
      cases out with
      | errR e => exact ih s1 (some e) hs1done hdone
      | absent => exact ih s1 none hs1done hdone
      | okR e cached =>
        have hobs := insertResolved_obs production s1 sp e cached
        exact ih (insertResolved production s1 sp e cached) none
          (hobs.1.trans hs1done) hdone

/-- C6 (amended): `resolve` destroys the instance on completion — whenever a
run reaches the empty-todolist completion path (`done = true`), the
delivered final state has a null cache and a null registry reference, so
the cache never survives a completed `resolve` call. -/
theorem c6_resolve_destroys_cache_on_completion (reg : String → RegResp)
    (production : Bool) (src : Manifest) (fuel : Nat)
    (h : (resolve reg production src fuel).done = true) :
    (resolve reg production src fuel).cache = none ∧
      (resolve reg production src fuel).registryAlive = false := by
  have h0 : (enqueueGroups production
      { rootName := src.name, rootVersion := src.version } src.groups
      NodeId.root 0).done = false :=
    (frame_enqueueGroups production
      { rootName := src.name, rootVersion := src.version } src.groups
      NodeId.root 0).fdone
  exact runWorker_destroyed_of_done reg production fuel _ none h0 h

theorem c6_witness :
    (resolve c6Reg false c6Src 10).done = true ∧
    (resolve c6Reg false c6Src 10).cache = none ∧
      (resolve c6Reg false c6Src 10).registryAlive = false :=
  ⟨by decide,
    c6_resolve_destroys_cache_on_completion c6Reg false c6Src 10 (by decide)⟩

/-! ## Claim C1: coalescing of release dispatches

The run invariant: todolist keys are unique, fresh with respect to the
tree, and consistent with their name/range; the per-name cache is coherent
with the registry; and every resolvable `(name, range)` pair has been
dispatched at most once — with the dispatched ones already resolved in the
tree, which is what stops any further dispatch. -/

def CacheCoh (reg : String → RegResp) (s : RState) : Prop :=
  ∀ c, s.cache = some c → ∀ n rr, assocFind c.byName n = some rr →
    regBuild reg n = some rr

structure Inv (reg : String → RegResp) (s : RState) : Prop where
  nodupIds : (s.todolist.map Spec._id).Nodup
  fresh : ∀ sp ∈ s.todolist, assocFind s.tree sp._id = none
  keyed : ∀ sp ∈ s.todolist, sp._id = mkKey sp.name sp.range
  coh : CacheCoh reg s
  disp : ∀ n r, resolvable reg n r = true →
    countOcc (n, r) s.dispatchLog = 0 ∨
    (countOcc (n, r) s.dispatchLog = 1 ∧
      (assocFind s.tree (mkKey n r)).isSome = true)

theorem Inv.of_frame {reg : String → RegResp} {s t : RState} (hf : Frame s t)
    (htodo : t.todolist = s.todolist) (h : Inv reg s) : Inv reg t := by
  refine ⟨?_, ?_, ?_, ?_, ?_⟩
  · rw [htodo]; exact h.nodupIds
  · intro sp hsp
    rw [htodo] at hsp
    apply isSome_false_eq_none
    rw [hf.ftreeSome sp._id, h.fresh sp hsp]
    rfl
  · intro sp hsp
    rw [htodo] at hsp
    exact h.keyed sp hsp
  · intro c hc
    rw [hf.fcache] at hc
    exact h.coh c hc
  · intro n r hres
    rw [hf.fdlog]
    rcases h.disp n r hres with h1 | ⟨h1, h2⟩
    · exact Or.inl h1
    · exact Or.inr ⟨h1, by rw [hf.ftreeSome]; exact h2⟩

theorem optimize_todolist (s : RState) (k : String) :
    (optimize s k).todolist = s.todolist := by
  unfold optimize
  split <;> rfl

theorem initRefDeps_todolist (s : RState) (ref : NodeId) :
    (initRefDeps s ref).todolist = s.todolist := by
  cases ref <;> rfl

theorem setRefDep_todolist (s : RState) (ref : NodeId) (nm ck : String) :
    (setRefDep s ref nm ck).todolist = s.todolist := by
  cases ref <;> rfl

theorem foldl_setRefDep_todolist (parents : List NodeId) (nm ck : String) :
    ∀ s : RState,
      (parents.foldl (fun st p => setRefDep st p nm ck) s).todolist = s.todolist := by
  induction parents with
  | nil => intro s; rfl
  | cons p t ih =>
    intro s
    rw [List.foldl_cons, ih, setRefDep_todolist]

theorem mergeTodo_sig (ts : List Spec) (sp : Spec) :
    ∀ t2 ∈ mergeTodo ts sp, ∃ t ∈ ts,
      t2._id = t._id ∧ t2.name = t.name ∧ t2.range = t.range := by
  induction ts with
  | nil => intro t2 h2; cases h2
  | cons t ts ih =>
    intro t2 h2
    by_cases he : t._id = sp._id
    · rw [mergeTodo, if_pos he] at h2
      rcases List.mem_cons.mp h2 with h3 | h3
      · exact ⟨t, List.mem_cons_self t ts, by rw [h3], by rw [h3], by rw [h3]⟩
      · exact ⟨t2, List.mem_cons_of_mem t h3, rfl, rfl, rfl⟩
    · rw [mergeTodo, if_neg he] at h2
      rcases List.mem_cons.mp h2 with h3 | h3
      · exact ⟨t, List.mem_cons_self t ts, by rw [h3], by rw [h3], by rw [h3]⟩
      · rcases ih t2 h3 with ⟨t4, ht4, hsig⟩
        exact ⟨t4, List.mem_cons_of_mem t ht4, hsig⟩

theorem mergeTodo_ids (ts : List Spec) (sp : Spec) :
    (mergeTodo ts sp).map Spec._id = ts.map Spec._id := by
  induction ts with
  | nil => rfl
  | cons t ts ih =>
    by_cases he : t._id = sp._id
    · simp [mergeTodo, he]
    · simp [mergeTodo, he, ih]

theorem countOcc_append_single {α : Type} [DecidableEq α] (k : α) (l : List α)
    (x : α) :
    countOcc k (l ++ [x]) = countOcc k l + (if x = k then 1 else 0) := by
  simp only [countOcc, List.filter_append]
  by_cases h : x = k <;> simp [h]

theorem inv_queuePush {reg : String → RegResp} (s : RState) (sp : Spec)
    (hid : sp._id = mkKey sp.name sp.range) (h : Inv reg s) :
    Inv reg (queuePush s sp) := by
  unfold queuePush
  split
  · refine ⟨?_, ?_, ?_, ?_, ?_⟩
    · show ((mergeTodo s.todolist sp).map Spec._id).Nodup
      rw [mergeTodo_ids]
      exact h.nodupIds
    · intro t2 ht2
      rcases mergeTodo_sig s.todolist sp t2 ht2 with ⟨t, ht, h1, _, _⟩
      show assocFind s.tree t2._id = none
      rw [h1]
      exact h.fresh t ht
    · intro t2 ht2
      rcases mergeTodo_sig s.todolist sp t2 ht2 with ⟨t, ht, h1, h2, h3⟩
      show t2._id = mkKey t2.name t2.range
      rw [h1, h2, h3]
      exact h.keyed t ht
    · exact fun c hc => h.coh c hc
    · exact h.disp
  · split
    · refine Inv.of_frame
        (Frame.comp (frame_tree_update s sp._id _) (frame_optimize _ _)) ?_ h
      rw [optimize_todolist]
    · rename_i hany _x hnone
      have hnotin : ∀ t ∈ s.todolist, ¬ t._id = sp._id := by
        intro t ht he
        apply hany
        rw [List.any_eq_true]
        exact ⟨t, ht, by simp [he]⟩
      refine ⟨?_, ?_, ?_, ?_, ?_⟩
      · show ((s.todolist ++ [sp]).map Spec._id).Nodup
        rw [List.map_append]
        apply List.Nodup.append h.nodupIds (List.nodup_singleton _)
        intro a ha hb
        rcases List.mem_map.mp ha with ⟨t, ht, hta⟩
        rcases List.mem_singleton.mp hb with rfl
        exact hnotin t ht hta
      · intro t2 ht2
        rcases List.mem_append.mp ht2 with h3 | h3
        · exact h.fresh t2 h3
        · rcases List.mem_singleton.mp h3 with rfl
          exact hnone
      · intro t2 ht2
        rcases List.mem_append.mp ht2 with h3 | h3
        · exact h.keyed t2 h3
        · rcases List.mem_singleton.mp h3 with rfl
          exact hid
      · exact fun c hc => h.coh c hc
      · exact h.disp

theorem inv_pushSpec {reg : String → RegResp} (ref : NodeId) (depth : Nat)
    (st : RState) (e : String × String) (h : Inv reg st) :
    Inv reg (pushSpec ref depth st e) := by
  unfold pushSpec
  apply inv_queuePush _ _ rfl
  exact Inv.of_frame (frame_initRefDeps st ref) (initRefDeps_todolist st ref) h

theorem inv_scanGroup {reg : String → RegResp}
    (group : Option (List (String × String))) (ref : NodeId) (depth : Nat) :
    ∀ s : RState, Inv reg s → Inv reg (scanGroup s group ref depth) := by
  cases group with
  | none => exact fun s h => h
  | some entries =>
    show ∀ s, Inv reg s → Inv reg (entries.foldl (pushSpec ref depth) s)
    induction entries with
    | nil => exact fun s h => h
    | cons e t ih =>
      intro s h
      rw [List.foldl_cons]
      exact ih _ (inv_pushSpec ref depth s e h)

theorem inv_enqueueGroups {reg : String → RegResp} (production : Bool)
    (s : RState) (g : Groups) (ref : NodeId) (depth : Nat) (h : Inv reg s) :
    Inv reg (enqueueGroups production s g ref depth) := by
  unfold enqueueGroups
  dsimp only
  apply inv_scanGroup
  apply inv_scanGroup
  split
  · exact inv_scanGroup _ _ _ _ h
  · exact inv_scanGroup _ _ _ _ (inv_scanGroup _ _ _ _ h)

theorem coh_cacheInsKey {reg : String → RegResp} (s : RState) (k : String)
    (e : RelEntry) (h : CacheCoh reg s) : CacheCoh reg (cacheInsKey s k e) := by
  unfold cacheInsKey
  split
  · exact h
  · rename_i c hc
    intro c2 hc2 n0 rr0 hfind
    have he : { c with byKey := assocSet c.byKey k e } = c2 := Option.some.inj hc2
    rw [← he] at hfind
    exact h c hc n0 rr0 hfind

theorem coh_cacheInsName {reg : String → RegResp} (s : RState) (n : String)
    (rr : ReleasesResult) (h : CacheCoh reg s) (hrr : regBuild reg n = some rr) :
    CacheCoh reg (cacheInsName s n rr) := by
  unfold cacheInsName
  split
  · exact h
  · rename_i c hc
    intro c2 hc2 n0 rr0 hfind
    have he : { c with byName := assocSet c.byName n rr } = c2 := Option.some.inj hc2
    rw [← he] at hfind
    have hfind2 : assocFind (assocSet c.byName n rr) n0 = some rr0 := hfind
    rw [assocFind_assocSet] at hfind2
    by_cases hn : n0 = n
    · rw [if_pos hn] at hfind2
      rw [hn, ← Option.some.inj hfind2]
      exact hrr
    · rw [if_neg hn] at hfind2
      exact h c hc n0 rr0 hfind2

theorem coh_afterReleases {reg : String → RegResp} (s : RState)
    (rr : ReleasesResult) (range key : String) (h : CacheCoh reg s) :
    CacheCoh reg (afterReleases s rr range key).1 := by
  unfold afterReleases
  split
  · exact h
  · exact coh_cacheInsKey _ _ _ h

theorem coh_record_netLog {reg : String → RegResp} (s : RState) (n : String)
    (h : CacheCoh reg s) : CacheCoh reg { s with netLog := s.netLog ++ [n] } :=
  fun c hc => h c hc

theorem coh_releaseCore {reg : String → RegResp} (s : RState) (n r : String)
    (h : CacheCoh reg s) : CacheCoh reg (releaseCore reg s n r).1 := by
  unfold releaseCore
  split
  · exact h
  · split
    · exact coh_afterReleases _ _ _ _ h
    · split
      · exact coh_record_netLog _ _ h
      · rename_i docs hdocs
        apply coh_afterReleases
        apply coh_cacheInsName _ _ _ (coh_record_netLog _ _ h)
        rw [regBuild, hdocs]

theorem coh_releaseStep {reg : String → RegResp} (s : RState) (n r : String)
    (h : CacheCoh reg s) : CacheCoh reg (releaseStep reg s n r).1 := by
  unfold releaseStep
  exact coh_releaseCore _ _ _ (fun c hc => h c hc)

theorem releaseCore_ok_of_resolvable {reg : String → RegResp} (s : RState)
    (n r : String) (h : CacheCoh reg s) (hres : resolvable reg n r = true) :
    (releaseCore reg s n r).2.isOk = true := by
  have hcompute : ∀ rr, regBuild reg n = some rr → (computeRel rr r).isSome = true := by
    intro rr hb
    unfold resolvable at hres
    rw [hb] at hres
    simpa using hres
  unfold releaseCore
  split
  · rfl
  · split
    · rename_i rr hrr
      rcases Option.bind_eq_some.mp hrr with ⟨c, hc, hfind⟩
      have hcr := hcompute rr (h c hc n rr hfind)
      unfold afterReleases
      split
      · rename_i hnonecr
        rw [hnonecr] at hcr
        cases hcr
      · rfl
    · split
      · rename_i e herr
        exfalso
        unfold resolvable regBuild at hres
        rw [herr] at hres
        simp at hres
      · rename_i docs hdocs
        have hcr := hcompute (buildR docs) (by rw [regBuild, hdocs])
        unfold afterReleases
        split
        · rename_i hnonecr
          rw [hnonecr] at hcr
          cases hcr
        · rfl

theorem releaseStep_ok_of_resolvable {reg : String → RegResp} (s : RState)
    (n r : String) (h : CacheCoh reg s) (hres : resolvable reg n r = true) :
    (releaseStep reg s n r).2.isOk = true := by
  unfold releaseStep
  exact releaseCore_ok_of_resolvable _ _ _ (fun c hc => h c hc) hres

theorem inv_pop {reg : String → RegResp} (s : RState) (sp : Spec)
    (rest : List Spec) (hsp : s.todolist = sp :: rest) (h : Inv reg s) :
    Inv reg { s with todolist := rest } ∧
      assocFind s.tree sp._id = none ∧
      sp._id = mkKey sp.name sp.range ∧
      sp._id ∉ rest.map Spec._id := by
  have hmem : sp ∈ s.todolist := by rw [hsp]; exact List.mem_cons_self sp rest
  have hnodup := h.nodupIds
  rw [hsp, List.map_cons, List.nodup_cons] at hnodup
  refine ⟨⟨hnodup.2, ?_, ?_, fun c hc => h.coh c hc, h.disp⟩,
    h.fresh sp hmem, h.keyed sp hmem, hnodup.1⟩
  · intro t2 ht2
    exact h.fresh t2 (by rw [hsp]; exact List.mem_cons_of_mem sp ht2)
  · intro t2 ht2
    exact h.keyed t2 (by rw [hsp]; exact List.mem_cons_of_mem sp ht2)

theorem inv_insertResolved {reg : String → RegResp} (production : Bool)
    (s1 : RState) (sp : Spec) (e : RelEntry) (cached : Bool)
    (hnodup : (s1.todolist.map Spec._id).Nodup)
    (hfresh : ∀ t2 ∈ s1.todolist, assocFind s1.tree t2._id = none)
    (hkeyed : ∀ t2 ∈ s1.todolist, t2._id = mkKey t2.name t2.range)
    (hcoh : CacheCoh reg s1)
    (hnotin : sp._id ∉ s1.todolist.map Spec._id)
    (hdisp : ∀ n r, resolvable reg n r = true →
        countOcc (n, r) s1.dispatchLog = 0 ∨
        (countOcc (n, r) s1.dispatchLog = 1 ∧
          ((assocFind s1.tree (mkKey n r)).isSome = true ∨ mkKey n r = sp._id))) :
    Inv reg (insertResolved production s1 sp e cached) := by
  have hs2 : Inv reg
      { s1 with tree := assocSet s1.tree sp._id (e.module.clone sp.parents sp.depth) } := by
    refine ⟨hnodup, ?_, hkeyed, fun c hc => hcoh c hc, ?_⟩
    · intro t2 ht2
      show assocFind (assocSet s1.tree sp._id _) t2._id = none
      rw [assocFind_assocSet, if_neg ?_]
      · exact hfresh t2 ht2
      · intro he
        exact hnotin (he ▸ List.mem_map.mpr ⟨t2, ht2, rfl⟩)
    · intro n r hres
      rcases hdisp n r hres with h1 | ⟨h1, h2⟩
      · exact Or.inl h1
      · refine Or.inr ⟨h1, ?_⟩
        show (assocFind (assocSet s1.tree sp._id _) (mkKey n r)).isSome = true
        rcases h2 with h2 | h2
        · exact isSome_assocFind_assocSet_of_isSome _ _ _ _ h2
        · rw [assocFind_assocSet, if_pos h2]
          rfl
  have hs3 := Inv.of_frame
    (frame_foldl_setRefDep sp.parents sp.name sp._id
      { s1 with tree := assocSet s1.tree sp._id (e.module.clone sp.parents sp.depth) })
    (foldl_setRefDep_todolist sp.parents sp.name sp._id
      { s1 with tree := assocSet s1.tree sp._id (e.module.clone sp.parents sp.depth) })
    hs2
  unfold insertResolved
  dsimp only
  split
  · exact hs3
  · exact inv_enqueueGroups production _ e.groups (NodeId.key sp._id) (sp.depth + 1) hs3

theorem inv_runWorker (reg : String → RegResp) (production : Bool) :
    ∀ (fuel : Nat) (s : RState) (eIn : Option String), Inv reg s →
      Inv reg (runWorker reg production fuel s eIn) := by
  intro fuel
  induction fuel with
  | zero =>
    intro s eIn h
    cases eIn with
    | none => exact h
    | some e => exact ⟨h.nodupIds, h.fresh, h.keyed, fun c hc => h.coh c hc, h.disp⟩
  | succ n0 ih =>
    intro s eIn h
    rw [runWorker]
    have hP : Inv reg (pushErr s eIn) := by
      cases eIn with
      | none => exact h
      | some e => exact ⟨h.nodupIds, h.fresh, h.keyed, fun c hc => h.coh c hc, h.disp⟩
    cases hsp : (pushErr s eIn).todolist with
    | nil =>
      simp only [hsp]
      refine ⟨?_, ?_, ?_, ?_, hP.disp⟩
      · show (((pushErr s eIn).todolist).map Spec._id).Nodup
        rw [hsp]
        exact List.nodup_nil
      · intro t2 ht2
        have ht2b : t2 ∈ (pushErr s eIn).todolist := ht2
        rw [hsp] at ht2b
        cases ht2b
      · intro t2 ht2
        have ht2b : t2 ∈ (pushErr s eIn).todolist := ht2
        rw [hsp] at ht2b
        cases ht2b
      · intro c hc
        simp [finishRun] at hc
    | cons sp rest =>
      simp only [hsp]
      obtain ⟨hPop, hfreshHead, hkeyHead, hnotinHead⟩ :=
        inv_pop (pushErr s eIn) sp rest hsp hP
      have hfr := releaseStep_frame reg { pushErr s eIn with todolist := rest }
        sp.name sp.range
      have hcoh1 := coh_releaseStep { pushErr s eIn with todolist := rest }
        sp.name sp.range (fun c hc => hPop.coh c hc)
      have hok := fun hres =>
        releaseStep_ok_of_resolvable { pushErr s eIn with todolist := rest }
          sp.name sp.range (fun c hc => hPop.coh c hc) hres
      rcases hrel : releaseStep reg { pushErr s eIn with todolist := rest }
        sp.name sp.range with ⟨s1, out⟩
      rw [hrel] at hfr hcoh1
      have hs1todo : s1.todolist = rest := hfr.1
      have hs1tree : s1.tree = (pushErr s eIn).tree := hfr.2.1
      have hs1dlog : s1.dispatchLog =
          (pushErr s eIn).dispatchLog ++ [(sp.name, sp.range)] := hfr.2.2.2.2.2
      cases out with
      | errR e0 =>
        apply ih
        refine ⟨?_, ?_, ?_, hcoh1, ?_⟩
        · rw [hs1todo]
          exact hPop.nodupIds
        · intro t2 ht2
          rw [hs1todo] at ht2
          rw [hs1tree]
          exact hPop.fresh t2 ht2
        · intro t2 ht2
          rw [hs1todo] at ht2
          exact hPop.keyed t2 ht2
        · intro n r hres
          have hneq : ¬ ((sp.name, sp.range) = (n, r)) := by
            intro heq2
            have hn : sp.name = n := congrArg Prod.fst heq2
            have hr : sp.range = r := congrArg Prod.snd heq2
            have hres2 : resolvable reg sp.name sp.range = true := by
              rw [hn, hr]
              exact hres
            have hok2 := hok hres2
            rw [hrel] at hok2
            simp [ROut.isOk] at hok2
          rcases hPop.disp n r hres with h1 | ⟨h1, h2⟩
          · left
            rw [hs1dlog, countOcc_append_single, if_neg hneq, h1]
          · right
            constructor
            · rw [hs1dlog, countOcc_append_single, if_neg hneq, h1]
            · rw [hs1tree]
              exact h2
      | absent =>
        apply ih
        refine ⟨?_, ?_, ?_, hcoh1, ?_⟩
        · rw [hs1todo]
          exact hPop.nodupIds
        · intro t2 ht2
          rw [hs1todo] at ht2
          rw [hs1tree]
          exact hPop.fresh t2 ht2
        · intro t2 ht2
          rw [hs1todo] at ht2
          exact hPop.keyed t2 ht2
        · intro n r hres
          have hneq : ¬ ((sp.name, sp.range) = (n, r)) := by
            intro heq2
            have hn : sp.name = n := congrArg Prod.fst heq2
            have hr : sp.range = r := congrArg Prod.snd heq2
            have hres2 : resolvable reg sp.name sp.range = true := by
              rw [hn, hr]
              exact hres
            have hok2 := hok hres2
            rw [hrel] at hok2
            simp [ROut.isOk] at hok2
          rcases hPop.disp n r hres with h1 | ⟨h1, h2⟩
          · left
            rw [hs1dlog, countOcc_append_single, if_neg hneq, h1]
          · right
            constructor
            · rw [hs1dlog, countOcc_append_single, if_neg hneq, h1]
            · rw [hs1tree]
              exact h2
      | okR e0 cached =>
        apply ih
        apply inv_insertResolved production s1 sp e0 cached
        · rw [hs1todo]
          exact hPop.nodupIds
        · intro t2 ht2
          rw [hs1todo] at ht2
          rw [hs1tree]
          exact hPop.fresh t2 ht2
        · intro t2 ht2
          rw [hs1todo] at ht2
          exact hPop.keyed t2 ht2
        · exact hcoh1
        · rw [hs1todo]
          exact hnotinHead
        · intro n r hres
          by_cases heq2 : (sp.name, sp.range) = (n, r)
          · have hn : sp.name = n := congrArg Prod.fst heq2
            have hr : sp.range = r := congrArg Prod.snd heq2
            rcases hPop.disp n r hres with h1 | ⟨h1, h2⟩
            · right
              refine ⟨?_, Or.inr ?_⟩
              · rw [hs1dlog, countOcc_append_single, if_pos heq2, h1]
              · rw [← hn, ← hr, ← hkeyHead]
            · exfalso
              have h2b := h2
              rw [← hn, ← hr, ← hkeyHead] at h2b
              rw [show ({ pushErr s eIn with todolist := rest } : RState).tree
                  = (pushErr s eIn).tree from rfl] at h2b
              rw [hfreshHead] at h2b
              cases h2b
          · rcases hPop.disp n r hres with h1 | ⟨h1, h2⟩
            · left
              rw [hs1dlog, countOcc_append_single, if_neg heq2, h1]
            · right
              refine ⟨?_, Or.inl ?_⟩
              · rw [hs1dlog, countOcc_append_single, if_neg heq2, h1]
              · rw [hs1tree]
                exact h2

/-- C1 (amended): during one resolution session, `release` is dispatched at
most once per `(name, range)` pair whose lookup succeeds — once such a pair
resolves, its Module sits in the dependency tree under its `name@range` key,
queued duplicates are merged into the pending todolist entry, and
re-requests of a resolved key only extend its dependents; only a pair whose
lookup fails or comes back absent can be dispatched again. -/
theorem c1_release_dispatched_at_most_once_for_resolvable
    (reg : String → RegResp) (production : Bool) (src : Manifest) (fuel : Nat)
    (n r : String) (hres : resolvable reg n r = true) :
    countOcc (n, r) (resolve reg production src fuel).dispatchLog ≤ 1 := by
  have h0 : Inv reg ({ rootName := src.name, rootVersion := src.version } : RState) := by
    refine ⟨List.nodup_nil, ?_, ?_, ?_, ?_⟩
    · intro sp hsp
      cases hsp
    · intro sp hsp
      cases hsp
    · intro c hc n0 rr0 hfind
      have hce : ({} : Cache) = c := Option.some.inj hc
      rw [← hce] at hfind
      simp [assocFind] at hfind
    · intro n0 r0 _
      left
      rfl
  have h2 := inv_runWorker reg production fuel
    (enqueueGroups production { rootName := src.name, rootVersion := src.version }
      src.groups NodeId.root 0) none
    (inv_enqueueGroups production _ src.groups NodeId.root 0 h0)
  show countOcc (n, r)
      (runWorker reg production fuel
        (enqueueGroups production { rootName := src.name, rootVersion := src.version }
          src.groups NodeId.root 0) none).dispatchLog ≤ 1
  rcases h2.disp n r hres with h3 | ⟨h3, _⟩
  · rw [h3]
    exact Nat.zero_le 1
  · rw [h3]

theorem c1_witness :
    resolvable c1Reg "B" "1.0.0" = true ∧
    countOcc ("B", "1.0.0") (resolve c1Reg false c1Src 10).dispatchLog ≤ 1 :=
  ⟨by decide,
    c1_release_dispatched_at_most_once_for_resolvable c1Reg false c1Src 10
      "B" "1.0.0" (by decide)⟩

end Shrinkwrap
